import Mathlib

/-!
Shallow embedding of the Inven board crawler pipeline
(`pipelines/http_client.py`, `pipelines/inven_crawler.py`,
`pipelines/sentiment_model.py`, `pipelines/models.py`), together with
theorems settling the specification claims about it.

Modelling conventions:
- Python `str` is Lean `String` (a list of unicode code points); `str.strip`
  is modelled on the six ASCII whitespace characters Python strips.
- Durations and probabilities are `ℚ` (the claims do not depend on
  floating-point rounding).
- HTML documents are modelled at the level the code consumes them:
  a list page is the list of its anchors (href resolved to an absolute,
  parsed URL; text as `get_text(" ", strip=True)` yields it), a detail
  page is its optional `h2` text plus the flattened non-blank text lines.
- Network and randomness are oracles passed as function arguments.
-/

/-- The six characters Python's `str.strip()` / `\s` treat as whitespace
(ASCII approximation of the unicode classes). -/
def pyWhitespace (c : Char) : Bool :=
  c = ' ' || c = '\t' || c = '\n' || c = '\r' || c = '\x0b' || c = '\x0c'

/-- `str.strip()` on a list of characters. -/
def pyStripList (l : List Char) : List Char :=
  ((l.dropWhile pyWhitespace).reverse.dropWhile pyWhitespace).reverse

/-- Python `str.strip()`. -/
def pyStrip (s : String) : String :=
  ⟨pyStripList s.data⟩

/-- Python `needle in hay` substring test. -/
def strContains (hay needle : String) : Bool :=
  decide (List.IsInfix needle.data hay.data)

/-- Python `s.startswith(p)` on code points. -/
def strStartsWith (s p : String) : Bool :=
  p.data.isPrefixOf s.data

/-- The components of a parsed URL that the crawler inspects
(`urllib.parse.urlparse` output restricted to what the code reads). -/
structure Url where
  netloc : String
  path : String
  query : String
deriving DecidableEq, Repr

/-- `pipelines/models.py` `BoardPostRef`. -/
structure BoardPostRef where
  board_id : Nat
  post_id : Nat
  url : Url
  title : String
  category : Option String
deriving DecidableEq, Repr

/-- `pipelines/models.py` `BoardPost`. -/
structure BoardPost where
  board_id : Nat
  post_id : Nat
  url : Url
  title : String
  category : Option String
  author : Option String
  created_at : Option String
  content : String
deriving DecidableEq, Repr

/-! ### Category splitting (`InvenCrawler._split_category`) -/

/-- Match of `^\[([^\]]{1,6})\]` against the start of the character list:
the characters strictly between the leading bracket pair (none of them a
closing bracket, 1 to 6 of them) and the remainder after the closing
bracket. -/
def bracketSplit (cs : List Char) : Option (List Char × List Char) :=
  match cs with
  | c :: rest =>
    if c = '[' then
      let X := rest.takeWhile (· ≠ ']')
      match rest.dropWhile (· ≠ ']') with
      | ']' :: t => if 1 ≤ X.length ∧ X.length ≤ 6 then some (X, t) else none
      | _ => none
    else none
  | [] => none

/-- Match of the regex tail `\s*(.+)$` against `t`, returning the group:
a greedy run of whitespace, then one or more non-newline characters,
optionally followed by one final newline (Python `$`). Greedy `\s*`
backtracks from the longest whitespace run. -/
def tailDirect (t : List Char) : Option (List Char) :=
  let g := if t.getLast? = some '\n' then t.dropLast else t
  if g ≠ [] ∧ g.all (· ≠ '\n') then some g else none

/-- Greedy matcher for `\s*(.+)$`: consume the longest whitespace run
first, backing off one character at a time. -/
def matchTail : List Char → Option (List Char)
  | [] => none
  | c :: rest =>
    if pyWhitespace c then
      match matchTail rest with
      | some g => some g
      | none => tailDirect (c :: rest)
    else tailDirect (c :: rest)

/-- Python `s.split(" ", 1)` when it produces two parts: the characters
before the first space and the characters after it. `none` when the
string has no space. -/
def splitFirstSpace : List Char → Option (List Char × List Char)
  | [] => none
  | c :: rest =>
    if c = ' ' then some ([], rest)
    else (splitFirstSpace rest).map (fun p => (c :: p.1, p.2))

/-- `InvenCrawler._split_category`: bracket rule
`^\[([^\]]{1,6})\]\s*(.+)$`, else first-space token of length 1 to 6 with
stripped remainder of length at least 2, else no category. -/
def split_category (title_raw : String) : Option String × String :=
  let fallback : Option String × String :=
    match splitFirstSpace title_raw.data with
    | some (p0, p1) =>
      if 1 ≤ p0.length ∧ p0.length ≤ 6 then
        let rest := pyStripList p1
        if 2 ≤ rest.length then (some ⟨pyStripList p0⟩, ⟨rest⟩)
        else (none, pyStrip title_raw)
      else (none, pyStrip title_raw)
    | none => (none, pyStrip title_raw)
  match bracketSplit title_raw.data with
  | some (X, t) =>
    match matchTail t with
    | some g => (some ⟨X⟩, pyStrip ⟨g⟩)
    | none => fallback
  | none => fallback

/-! ### Safety guard (`InvenCrawler._is_disallowed_path`,
`InvenCrawler._assert_allowed_url`) -/

/-- `InvenCrawler.DISALLOWED_PATH_PATTERNS` applied by `re.match`:
three exactly-anchored paths and one prefix pattern. -/
def is_disallowed_path (path : String) : Bool :=
  path = "/board/prevnext.php" || path = "/powerbbs/prevnext.php" ||
    strStartsWith path "/staff/" || path = "/webzine/prevnext.php"

/-- The host allow-list of `InvenCrawler._assert_allowed_url`. -/
def ALLOWED_HOSTS : List String :=
  ["m.inven.co.kr", "www.inven.co.kr", "inven.co.kr"]

/-- The `ValueError` raised by the safety guard (the spec's `PolicyError`). -/
inductive PolicyError where
  | unexpectedHost (netloc : String)
  | disallowedPath (path : String)
deriving DecidableEq, Repr

/-- `InvenCrawler._assert_allowed_url`: host checked first, then path. -/
def assert_allowed_url (u : Url) : Except PolicyError Unit :=
  if ALLOWED_HOSTS.contains u.netloc then
    if is_disallowed_path u.path then .error (.disallowedPath u.path)
    else .ok ()
  else .error (.unexpectedHost u.netloc)

/-! ### List extraction (`InvenCrawler._parse_list_html`) -/

/-- One anchor of a list page, after URL resolution: `urljoin` of the
stripped raw href against the site base, parsed (`href`), and the
anchor's visible text `a.get_text(" ", strip=True)` (`text`). -/
structure Anchor where
  href : Url
  text : String
deriving DecidableEq, Repr

/-- Split a character list on a separator (Python `str.split(sep)`). -/
def splitChar (sep : Char) : List Char → List (List Char)
  | [] => [[]]
  | c :: rest =>
    if c = sep then [] :: splitChar sep rest
    else
      match splitChar sep rest with
      | [] => [[c]]
      | g :: gs => (c :: g) :: gs

/-- `int()` of a non-empty ASCII digit string. -/
def digitsToNat (l : List Char) : Nat :=
  l.foldl (fun acc c => acc * 10 + (c.toNat - 48)) 0

/-- Match of the board-scoped post-path regex
`^/board/[^/]+/<board_id>/(\d+)$` against a path, returning the parsed
post id: five slash-separated segments, the first empty, then the
literal board segment, a non-empty game segment, the decimal board id,
and a non-empty run of digits. -/
def post_path_match (board_id : Nat) (path : String) : Option Nat :=
  match splitChar '/' path.data with
  | [[], b, seg, bid, digits] =>
    if b = "board".data ∧ seg ≠ [] ∧ bid = (toString board_id).data ∧
        digits ≠ [] ∧ digits.all Char.isDigit then
      some (digitsToNat digits)
    else none
  | _ => none

/-- `InvenCrawler._parse_list_html`: keep each anchor whose resolved path
matches the board post pattern and is not disallowed and whose visible
text is non-empty; split category from the text. -/
def parse_list_html (board_id : Nat) (anchors : List Anchor) : List BoardPostRef :=
  anchors.filterMap (fun a =>
    match post_path_match board_id a.href.path with
    | none => none
    | some pid =>
      if is_disallowed_path a.href.path then none
      else if a.text = "" then none
      else
        let c := split_category a.text
        some { board_id := board_id, post_id := pid, url := a.href,
               title := c.2, category := c.1 })

/-! ### Detail extraction (`InvenCrawler._extract_created_at`,
`_extract_author`, `_extract_content`, `_parse_post_html`) -/

/-- `\w` of the timestamp regex word boundaries (ASCII approximation). -/
def isWordChar (c : Char) : Bool :=
  c.isAlphanum || c = '_'

/-- Try to match `20\d{2}-\d{2}-\d{2}\s+\d{2}:\d{2}:\d{2}\b` at the head
of the character list (the leading word boundary is checked by the
caller), returning the matched characters. -/
def tsMatchAt (l : List Char) : Option (List Char) :=
  match l with
  | '2' :: '0' :: y1 :: y2 :: '-' :: mo1 :: mo2 :: '-' :: d1 :: d2 :: rest =>
    if [y1, y2, mo1, mo2, d1, d2].all Char.isDigit then
      let ws := rest.takeWhile pyWhitespace
      match ws, rest.dropWhile pyWhitespace with
      | _ :: _, h1 :: h2 :: ':' :: mi1 :: mi2 :: ':' :: s1 :: s2 :: rest3 =>
        if [h1, h2, mi1, mi2, s1, s2].all Char.isDigit ∧
            ¬ (rest3.head?.any isWordChar) then
          some ('2' :: '0' :: y1 :: y2 :: '-' :: mo1 :: mo2 :: '-' :: d1 ::
            d2 :: ws ++ h1 :: h2 :: ':' :: mi1 :: mi2 :: ':' :: s1 :: s2 :: [])
        else none
      | _, _ => none
    else none
  | _ => none

/-- Leftmost search for the timestamp pattern, tracking the previous
character for the leading word boundary. -/
def tsSearch (prev : Option Char) : List Char → Option (List Char)
  | [] => none
  | c :: rest =>
    match (if prev.any isWordChar then none else tsMatchAt (c :: rest)) with
    | some m => some m
    | none => tsSearch (some c) rest

/-- `re.search` of the timestamp pattern in one line, `group(0)`. -/
def find_timestamp (ln : String) : Option String :=
  (tsSearch none ln.data).map (fun cs => ⟨cs⟩)

/-- `InvenCrawler._extract_created_at`: first timestamp match in the
first 140 lines. -/
def extract_created_at (lines : List String) : Option String :=
  (lines.take 140).findSome? find_timestamp

/-- The author-candidate filter of `InvenCrawler._extract_author`. -/
def author_ok (cand : String) : Bool :=
  1 ≤ cand.length && cand.length ≤ 20 &&
    !(strContains cand "게시판") && !(strContains cand "인벤") &&
    !(strContains cand "광고")

/-- Scan for the first view-count line that has a predecessor; `prev` is
the line before the current one (`none` at index 0). -/
def extract_author_go (prev : Option String) : List String → Option String
  | [] => none
  | ln :: rest =>
    if strStartsWith ln "조회:" then
      match prev with
      | some cand => if author_ok cand then some cand else none
      | none => extract_author_go (some ln) rest
    else extract_author_go (some ln) rest

/-- `InvenCrawler._extract_author` over the first 140 lines. -/
def extract_author (lines : List String) : Option String :=
  extract_author_go none (lines.take 140)

/-- The stop-marker set of `InvenCrawler._extract_content`. -/
def STOP_MARKERS : List String :=
  ["추천확인", "신고", "스팸신고", "공유", "스크랩", "댓글쓰기", "댓글보기", "목록"]

/-- Python `list.index` of the first occurrence. -/
def listIndex? (x : String) : List String → Option Nat
  | [] => none
  | y :: rest => if y = x then some 0 else (listIndex? x rest).map (· + 1)

/-- The title-scan fallback of `_extract_content`: index after the first
of the first 90 lines containing the (non-empty) title, else 0. -/
def title_start_idx (lines : List String) (title : String) : Nat :=
  match (lines.take 90).findIdx? (fun ln => title ≠ "" && strContains ln title) with
  | some i => i + 1
  | none => 0

/-- The content start index of `_extract_content`: the line after the
first occurrence of `created_at` when that string is truthy and present
verbatim among the lines, else the title scan. -/
def content_start_idx (lines : List String) (created_at : Option String)
    (title : String) : Nat :=
  match created_at with
  | some c =>
    if c ≠ "" then
      match listIndex? c lines with
      | some i => i + 1
      | none => title_start_idx lines title
    else title_start_idx lines title
  | none => title_start_idx lines title

/-- The collection loop of `_extract_content`: stop at the first
stop-marker line or trending-banner line; skip view-count and
recommend-count lines. -/
def collect_body : List String → List String
  | [] => []
  | ln :: rest =>
    if STOP_MARKERS.contains ln then []
    else if strStartsWith ln "지금 뜨는 인벤" then []
    else if strStartsWith ln "조회:" || strStartsWith ln "추천:" then collect_body rest
    else ln :: collect_body rest

/-- The list of content lines produced by `InvenCrawler._extract_content`. -/
def extract_content_body (lines : List String) (created_at : Option String)
    (title : String) : List String :=
  collect_body (lines.drop (content_start_idx lines created_at title))

/-- `InvenCrawler._extract_content`: collected lines newline-joined and
stripped. -/
def extract_content (lines : List String) (created_at : Option String)
    (title : String) : String :=
  pyStrip (String.intercalate "\n" (extract_content_body lines created_at title))

/-- A detail page as the code consumes it: the first `h2` element's text
when such an element exists, and the flattened non-blank stripped text
lines of the whole document. -/
structure DetailDoc where
  h2 : Option String
  lines : List String
deriving DecidableEq, Repr

/-- `InvenCrawler._parse_post_html`. -/
def parse_post_html (doc : DetailDoc) (ref : BoardPostRef) : BoardPost :=
  let title := match doc.h2 with
    | some t => t
    | none => ref.title
  let created_at := extract_created_at doc.lines
  let author := extract_author doc.lines
  let content := extract_content doc.lines created_at title
  { board_id := ref.board_id
    post_id := ref.post_id
    url := ref.url
    title := title
    category := ref.category
    author := author
    created_at := created_at
    content := content }

/-! ### HTTP client (`pipelines/http_client.py`) -/

/-- `HttpConfig` of `pipelines/http_client.py`. -/
structure HttpConfig where
  timeout_sec : ℚ
  delay_sec : ℚ
  max_retries : Nat
  backoff_base_sec : ℚ
  backoff_max_sec : ℚ
  user_agent : String
deriving DecidableEq, Repr

/-- The errors `HttpClient.get_text` can raise: a `requests.HTTPError`
for a blocked (403/429) response, a `requests.HTTPError` from
`raise_for_status`, or a network-level `requests.RequestException`. -/
inductive HttpError where
  | blocked (status : Nat)
  | httpStatus (status : Nat)
  | network (msg : String)
deriving DecidableEq, Repr

/-- The outcome of one `session.get` call: a response with a status code
and body text, or a raised network error. -/
inductive ReqOutcome where
  | response (status : Nat) (text : String)
  | netFail (msg : String)
deriving DecidableEq, Repr

/-- One attempt of the loop body of `get_text`: 403/429 raise a blocking
`HTTPError`, `raise_for_status` raises on 4xx/5xx, otherwise the body is
returned. -/
def attemptResult (o : ReqOutcome) : Except HttpError String :=
  match o with
  | .netFail msg => .error (.network msg)
  | .response status text =>
    if status = 403 ∨ status = 429 then .error (.blocked status)
    else if 400 ≤ status ∧ status < 600 then .error (.httpStatus status)
    else .ok text

/-- `HttpClient._compute_backoff` for a given attempt index and drawn
jitter: `min(backoff_base * 2^attempt, backoff_max) + jitter`. -/
def compute_backoff (cfg : HttpConfig) (attempt : Nat) (jitter : ℚ) : ℚ :=
  min (cfg.backoff_base_sec * 2 ^ attempt) cfg.backoff_max_sec + jitter

/-- Observable timing events of one `get_text` call: a `time.sleep` of a
duration, or the issuing of the HTTP request of attempt `k`. -/
inductive Event where
  | sleep (duration : ℚ)
  | request (attempt : Nat)
deriving DecidableEq, Repr

/-- The attempt loop of `HttpClient.get_text`, from attempt index `a`
with `fuel` iterations remaining (`fuel` starts at `max_retries + 1`;
the zero case is the unreachable fall-through after the loop, whose
`assert` would re-raise). `bj k` is the jitter drawn for the backoff
after attempt `k`; `resp k` is the outcome of attempt `k`'s request. -/
def getTextLoop (cfg : HttpConfig) (bj : Nat → ℚ) (resp : Nat → ReqOutcome) :
    Nat → Nat → List Event × Except HttpError String
  | _, 0 => ([], .error (.network "unreachable"))
  | a, fuel + 1 =>
    match attemptResult (resp a) with
    | .ok s => ([.request a], .ok s)
    | .error e =>
      if cfg.max_retries ≤ a then ([.request a], .error e)
      else
        let rest := getTextLoop cfg bj resp (a + 1) fuel
        (.request a :: .sleep (compute_backoff cfg a (bj a)) :: rest.1, rest.2)

/-- `HttpClient.get_text`: one rate-limit sleep of
`delay_sec + uniform(0, 0.25)` (jitter draw `j0`), then the attempt
loop. Returns the full event trace and the result. -/
def get_text (cfg : HttpConfig) (j0 : ℚ) (bj : Nat → ℚ)
    (resp : Nat → ReqOutcome) : List Event × Except HttpError String :=
  let r := getTextLoop cfg bj resp 0 (cfg.max_retries + 1)
  (.sleep (cfg.delay_sec + j0) :: r.1, r.2)

/-! ### Pagination (`InvenCrawler.fetch_post_refs`) -/

/-- The `collected` dict of `fetch_post_refs`, as an insertion-ordered
association list (the model of a Python `dict[int, BoardPostRef]`). -/
abbrev RefDict := List (Nat × BoardPostRef)

/-- `collected[k] = v` on a Python dict: replace in place when the key
exists (insertion position kept), else append. -/
def dict_insert (d : RefDict) (k : Nat) (v : BoardPostRef) : RefDict :=
  if d.any (fun p => p.1 = k) then
    d.map (fun p => if p.1 = k then (k, v) else p)
  else d ++ [(k, v)]

/-- The inner loop of `fetch_post_refs`: insert each parsed ref, breaking
as soon as the dict size has reached `max_posts`. -/
def insert_refs (max_posts : Nat) : List BoardPostRef → RefDict → RefDict
  | [], d => d
  | r :: rs, d =>
    let d' := dict_insert d r.post_id r
    if max_posts ≤ d'.length then d' else insert_refs max_posts rs d'

/-- The page loop of `fetch_post_refs` from page number `page` with
`remaining` pages left, instrumented with the visit log: each fetched
page paired with the dict size when it was fetched. Stops early when the
dict size has reached `max_posts` or a page yields no refs. -/
def pages_loop (pageRefs : Nat → List BoardPostRef) (max_posts : Nat) :
    Nat → Nat → RefDict → RefDict × List (Nat × Nat)
  | _, 0, d => (d, [])
  | page, remaining + 1, d =>
    let refs := pageRefs page
    let d' := insert_refs max_posts refs d
    if max_posts ≤ d'.length then (d', [(page, d.length)])
    else if refs = [] then (d', [(page, d.length)])
    else
      let rest := pages_loop pageRefs max_posts (page + 1) remaining d'
      (rest.1, (page, d.length) :: rest.2)

/-- `InvenCrawler.fetch_post_refs`: pages 1 to `max_pages`, each fetched
list page modelled by its anchors `listPages page`; returns
`list(collected.values())`. -/
def fetch_post_refs (board_id : Nat) (listPages : Nat → List Anchor)
    (max_pages max_posts : Nat) : List BoardPostRef :=
  (pages_loop (fun p => parse_list_html board_id (listPages p)) max_posts
      1 max_pages []).1.map Prod.snd

/-- The pages actually fetched by one `fetch_post_refs` call, each paired
with the accumulated dict size at the moment it was fetched. -/
def fetch_post_refs_visits (board_id : Nat) (listPages : Nat → List Anchor)
    (max_pages max_posts : Nat) : List (Nat × Nat) :=
  (pages_loop (fun p => parse_list_html board_id (listPages p)) max_posts
      1 max_pages []).2

/-! ### Detail fetch (`InvenCrawler.fetch_post`, `fetch_posts`) -/

/-- The errors one `fetch_post` call can raise: the safety guard's
`ValueError` or an HTTP failure from `get_text`. -/
inductive FetchPostError where
  | policy (e : PolicyError)
  | http (e : HttpError)
deriving DecidableEq, Repr

/-- `InvenCrawler.fetch_post`, instrumented with the number of network
calls issued: the safety guard runs first and a failing guard issues no
request; otherwise the detail page is fetched (`get`, the model of
`http.get_text` already parsed into a `DetailDoc`) and parsed. -/
def fetch_post_counted (get : Url → Except HttpError DetailDoc)
    (ref : BoardPostRef) : Except FetchPostError BoardPost × Nat :=
  match assert_allowed_url ref.url with
  | .error e => (.error (.policy e), 0)
  | .ok _ =>
    match get ref.url with
    | .error e => (.error (.http e), 1)
    | .ok doc => (.ok (parse_post_html doc ref), 1)

/-- `InvenCrawler.fetch_post` (result only). -/
def fetch_post (get : Url → Except HttpError DetailDoc)
    (ref : BoardPostRef) : Except FetchPostError BoardPost :=
  (fetch_post_counted get ref).1

/-- `InvenCrawler.fetch_posts`: sequential fetch of every ref, skipping
(logging only) each ref whose fetch or parse fails. -/
def fetch_posts (get : Url → Except HttpError DetailDoc)
    (refs : List BoardPostRef) : List BoardPost :=
  refs.filterMap (fun r => (fetch_post get r).toOption)

/-! ### Sentiment model (`pipelines/sentiment_model.py`) -/

/-- The `probs` mapping of a `SentimentResult`. -/
structure SentimentProbs where
  neg : ℚ
  neu : ℚ
  pos : ℚ
deriving DecidableEq, Repr

/-- `pipelines/sentiment_types.py` `SentimentResult`. -/
structure SentimentResult where
  label : String
  score : ℚ
  probs : SentimentProbs
deriving DecidableEq, Repr

/-- The fixed result for blank input text. -/
def NEUTRAL_RESULT : SentimentResult :=
  { label := "neu", score := 0, probs := { neg := 0, neu := 1, pos := 0 } }

/-- The blank test of `_predict_batch`: `not str(t).strip()`. -/
def is_blank (t : String) : Bool :=
  pyStrip t = ""

/-- `sentiment_model._argmax_label`. -/
def argmax_label (neg neu pos : ℚ) : String :=
  if pos ≥ neu ∧ pos ≥ neg then "pos"
  else if neg ≥ neu ∧ neg ≥ pos then "neg"
  else "neu"

/-- One row of the output loop of `_predict_batch`: blank rows map to the
fixed neutral result regardless of the model's probabilities `p`
(`(neg, neu, pos)`); otherwise the neutral floor and argmax label apply
and the score is `pos - neg`. -/
def predict_row (neutral_floor : ℚ) (isEmpty : Bool) (p : ℚ × ℚ × ℚ) :
    SentimentResult :=
  if isEmpty then NEUTRAL_RESULT
  else
    let neg := p.1
    let neu := p.2.1
    let pos := p.2.2
    let max_prob := max neg (max neu pos)
    let label :=
      if 0 < neutral_floor ∧ max_prob < neutral_floor then "neu"
      else argmax_label neg neu pos
    { label := label, score := pos - neg,
      probs := { neg := neg, neu := neu, pos := pos } }

/-- `SentimentModel._predict_batch`: blank texts are replaced by a
placeholder and masked; the tokenizer+model pipeline is the oracle
`model`, returning one probability triple per prepared text. -/
def predict_batch (neutral_floor : ℚ)
    (model : List String → List (ℚ × ℚ × ℚ)) (texts : List String) :
    List SentimentResult :=
  let prepared := texts.map (fun t => if is_blank t then "" else t)
  let empty_mask := texts.map is_blank
  ((model prepared).zip empty_mask).map (fun pe => predict_row neutral_floor pe.2 pe.1)

/-- `sentiment_model._batched`: slices of `batch_size` items
(`batch_size = 0` never occurs: `predict` validates it first, and
`range` with step 0 raises). -/
def batched (bs : Nat) : List String → List (List String)
  | [] => []
  | x :: xs =>
    if _h : bs = 0 then []
    else (x :: xs).take bs :: batched bs ((x :: xs).drop bs)
termination_by l => l.length
decreasing_by
  simp only [List.length_drop, List.length_cons]
  omega

/-- `SentimentModel.predict`: validates `batch_size` and `max_length`,
then concatenates the per-batch results. -/
def predict (batch_size max_length : Nat) (neutral_floor : ℚ)
    (model : List String → List (ℚ × ℚ × ℚ)) (texts : List String) :
    Except String (List SentimentResult) :=
  if batch_size = 0 then .error "batch_size must be > 0"
  else if max_length = 0 then .error "max_length must be > 0"
  else .ok (((batched batch_size texts).map
      (predict_batch neutral_floor model)).flatten)

/-! ## Helper lemmas -/

instance exceptDecidableEq {ε α : Type} [DecidableEq ε] [DecidableEq α] :
    DecidableEq (Except ε α)
  | .ok a, .ok b =>
    if h : a = b then .isTrue (h ▸ rfl)
    else .isFalse (fun hc => h (Except.ok.inj hc))
  | .error a, .error b =>
    if h : a = b then .isTrue (h ▸ rfl)
    else .isFalse (fun hc => h (Except.error.inj hc))
  | .ok _, .error _ => .isFalse (fun hc => Except.noConfusion hc)
  | .error _, .ok _ => .isFalse (fun hc => Except.noConfusion hc)

theorem filterMap_toOption_length {α β E : Type} (f : α → Except E β) :
    ∀ l : List α, (∀ x ∈ l, ∃ p, f x = .ok p) →
      (l.filterMap (fun x => (f x).toOption)).length = l.length := by
  intro l
  induction l with
  | nil => intro _; rfl
  | cons a t ih =>
    intro h
    obtain ⟨p, hp⟩ := h a (List.mem_cons_self a t)
    have ht := ih (fun x hx => h x (List.mem_cons_of_mem a hx))
    have hcons : List.filterMap (fun x => (f x).toOption) (a :: t)
        = p :: List.filterMap (fun x => (f x).toOption) t := by
      simp [List.filterMap_cons, hp, Except.toOption]
    rw [hcons, List.length_cons, ht, List.length_cons]

/-! ## Claim theorems -/

/-- C10: for every detail-page document and input reference, detail
parsing copies board_id, post_id, url and category unchanged from the
input PostRef; only title, author, created_at and content come from the
page. -/
theorem parse_post_html_frame :
    ∀ (doc : DetailDoc) (ref : BoardPostRef),
      (parse_post_html doc ref).board_id = ref.board_id ∧
      (parse_post_html doc ref).post_id = ref.post_id ∧
      (parse_post_html doc ref).url = ref.url ∧
      (parse_post_html doc ref).category = ref.category :=
  fun _ _ => ⟨rfl, rfl, rfl, rfl⟩

/-- C5: for every URL whose host is not allowed or whose path is
disallowed, the safety guard fails with a PolicyError and the
instrumented fetch issues zero network calls, for every fetcher. -/
theorem assert_allowed_rejects :
    ∀ (get : Url → Except HttpError DetailDoc) (ref : BoardPostRef),
      ref.url.netloc ∉ ALLOWED_HOSTS ∨ is_disallowed_path ref.url.path = true →
      ∃ e : PolicyError, assert_allowed_url ref.url = .error e ∧
        fetch_post_counted get ref = (.error (.policy e), 0) := by
  intro get ref h
  by_cases hm : ref.url.netloc ∈ ALLOWED_HOSTS
  · have hd : is_disallowed_path ref.url.path = true := by
      rcases h with h | h
      · exact absurd hm h
      · exact h
    exact ⟨.disallowedPath ref.url.path,
      by simp [assert_allowed_url, hm, hd],
      by simp [fetch_post_counted, assert_allowed_url, hm, hd]⟩
  · exact ⟨.unexpectedHost ref.url.netloc,
      by simp [assert_allowed_url, hm],
      by simp [fetch_post_counted, assert_allowed_url, hm]⟩

/-- Witness for C5: the robots-disallowed path `/board/prevnext.php` on
the allowed host is rejected with no network call. -/
theorem assert_allowed_rejects_witness :
    ∃ e : PolicyError,
      assert_allowed_url ⟨"m.inven.co.kr", "/board/prevnext.php", ""⟩ = .error e ∧
      fetch_post_counted (fun _ => .error (.network "x"))
        ⟨5558, 1, ⟨"m.inven.co.kr", "/board/prevnext.php", ""⟩, "t", none⟩ =
        (.error (.policy e), 0) :=
  assert_allowed_rejects (fun _ => .error (.network "x"))
    ⟨5558, 1, ⟨"m.inven.co.kr", "/board/prevnext.php", ""⟩, "t", none⟩
    (Or.inr (by decide))

/-- C6: when exactly one reference in a batch fails to fetch or parse,
fetch_posts returns the other N-1 records, in their relative input
order, without raising. -/
theorem fetch_posts_single_failure :
    ∀ (get : Url → Except HttpError DetailDoc)
      (l1 : List BoardPostRef) (r : BoardPostRef) (l2 : List BoardPostRef),
      (∀ x ∈ l1, ∃ p, fetch_post get x = .ok p) →
      (∃ e, fetch_post get r = .error e) →
      (∀ x ∈ l2, ∃ p, fetch_post get x = .ok p) →
      fetch_posts get (l1 ++ r :: l2) =
        fetch_posts get l1 ++ fetch_posts get l2 ∧
      (fetch_posts get (l1 ++ r :: l2)).length = l1.length + l2.length := by
  intro get l1 r l2 h1 ⟨e, he⟩ h2
  have hsplit : fetch_posts get (l1 ++ r :: l2) =
      fetch_posts get l1 ++ fetch_posts get l2 := by
    unfold fetch_posts
    rw [List.filterMap_append, List.filterMap_cons]
    simp [he, Except.toOption]
  refine ⟨hsplit, ?_⟩
  rw [hsplit, List.length_append]
  unfold fetch_posts
  rw [filterMap_toOption_length (fetch_post get) l1 h1,
    filterMap_toOption_length (fetch_post get) l2 h2]

/-- Witness for C6: of three references the middle one hits a network
error; the other two come back, in order. -/
theorem fetch_posts_single_failure_witness :
    fetch_posts
        (fun u => if u.path = "/board/lostark/5558/2"
          then .error (.network "boom") else .ok ⟨some "T", []⟩)
        ([⟨5558, 1, ⟨"m.inven.co.kr", "/board/lostark/5558/1", ""⟩, "t1", none⟩] ++
          ⟨5558, 2, ⟨"m.inven.co.kr", "/board/lostark/5558/2", ""⟩, "t2", none⟩ ::
          [⟨5558, 3, ⟨"m.inven.co.kr", "/board/lostark/5558/3", ""⟩, "t3", none⟩]) =
      fetch_posts
        (fun u => if u.path = "/board/lostark/5558/2"
          then .error (.network "boom") else .ok ⟨some "T", []⟩)
        [⟨5558, 1, ⟨"m.inven.co.kr", "/board/lostark/5558/1", ""⟩, "t1", none⟩] ++
      fetch_posts
        (fun u => if u.path = "/board/lostark/5558/2"
          then .error (.network "boom") else .ok ⟨some "T", []⟩)
        [⟨5558, 3, ⟨"m.inven.co.kr", "/board/lostark/5558/3", ""⟩, "t3", none⟩] ∧
    (fetch_posts
        (fun u => if u.path = "/board/lostark/5558/2"
          then .error (.network "boom") else .ok ⟨some "T", []⟩)
        ([⟨5558, 1, ⟨"m.inven.co.kr", "/board/lostark/5558/1", ""⟩, "t1", none⟩] ++
          ⟨5558, 2, ⟨"m.inven.co.kr", "/board/lostark/5558/2", ""⟩, "t2", none⟩ ::
          [⟨5558, 3, ⟨"m.inven.co.kr", "/board/lostark/5558/3", ""⟩, "t3", none⟩])).length = 1 + 1 :=
  fetch_posts_single_failure _ _ _ _
    (by
      intro x hx; simp at hx; subst hx
      exact ⟨⟨5558, 1, ⟨"m.inven.co.kr", "/board/lostark/5558/1", ""⟩,
        "T", none, none, none, ""⟩, by decide⟩)
    ⟨.http (.network "boom"), by decide⟩
    (by
      intro x hx; simp at hx; subst hx
      exact ⟨⟨5558, 3, ⟨"m.inven.co.kr", "/board/lostark/5558/3", ""⟩,
        "T", none, none, none, ""⟩, by decide⟩)

/-- Request-event recognizer on the get_text trace. -/
def isRequest : Event → Bool
  | .request _ => true
  | .sleep _ => false

theorem getTextLoop_allFail (cfg : HttpConfig) (bj : Nat → ℚ)
    (resp : Nat → ReqOutcome) (errs : Nat → HttpError)
    (h : ∀ k, k ≤ cfg.max_retries → attemptResult (resp k) = .error (errs k)) :
    ∀ n a, a + n = cfg.max_retries →
      getTextLoop cfg bj resp a (n + 1) =
        (((List.range' a n).map (fun t =>
            [Event.request t, Event.sleep (compute_backoff cfg t (bj t))])).flatten ++
          [Event.request (a + n)], .error (errs (a + n))) := by
  intro n
  induction n with
  | zero =>
    intro a ha
    simp only [Nat.add_zero] at ha ⊢
    subst ha
    rw [getTextLoop, h _ le_rfl]
    simp
  | succ n ih =>
    intro a ha
    have ha1 : a + 1 + n = cfg.max_retries := by omega
    have hlt : ¬ cfg.max_retries ≤ a := by omega
    rw [getTextLoop, h a (by omega)]
    simp only [hlt, if_false]
    rw [ih (a + 1) ha1]
    simp [List.range'_succ, List.flatten_cons]
    constructor
    · omega
    · congr 1
      omega

theorem requests_per_block (b : Nat → ℚ) :
    ∀ n a, (((List.range' a n).map (fun t =>
        [Event.request t, Event.sleep (b t)])).flatten).countP isRequest = n := by
  intro n
  induction n with
  | zero => intro a; rfl
  | succ n ih =>
    intro a
    rw [List.range'_succ, List.map_cons, List.flatten_cons, List.countP_append]
    rw [ih (a + 1)]
    simp [List.countP_cons, isRequest]
    omega

/-- C3: when every attempt fails, get_text issues exactly
max_retries + 1 request attempts and raises the error of the last
attempt, unchanged. -/
theorem get_text_exhausts_retries :
    ∀ (cfg : HttpConfig) (j0 : ℚ) (bj : Nat → ℚ) (resp : Nat → ReqOutcome)
      (errs : Nat → HttpError),
      (∀ k, k ≤ cfg.max_retries → attemptResult (resp k) = .error (errs k)) →
      ((get_text cfg j0 bj resp).1.countP isRequest = cfg.max_retries + 1 ∧
        (get_text cfg j0 bj resp).2 = .error (errs cfg.max_retries)) := by
  intro cfg j0 bj resp errs h
  have hc := getTextLoop_allFail cfg bj resp errs h cfg.max_retries 0 (by omega)
  unfold get_text
  rw [hc]
  constructor
  · simp only [List.countP_cons, List.countP_append]
    rw [requests_per_block (fun t => compute_backoff cfg t (bj t)) cfg.max_retries 0]
    simp [isRequest, Nat.zero_add]
  · simp

/-- Witness for C3: max_retries = 2 with every attempt a network
failure: three requests, and the third attempt's error is raised. -/
theorem get_text_exhausts_retries_witness :
    (get_text ⟨1, 1, 2, 1, 10, "ua"⟩ 0 (fun _ => 0)
        (fun k => .netFail (toString k))).1.countP isRequest = 2 + 1 ∧
      (get_text ⟨1, 1, 2, 1, 10, "ua"⟩ 0 (fun _ => 0)
        (fun k => .netFail (toString k))).2 = .error (.network (toString 2)) :=
  get_text_exhausts_retries ⟨1, 1, 2, 1, 10, "ua"⟩ 0 (fun _ => 0)
    (fun k => .netFail (toString k)) (fun k => .network (toString k))
    (fun _ _ => rfl)

theorem getTextLoop_request_pred (cfg : HttpConfig) (bj : Nat → ℚ)
    (resp : Nat → ReqOutcome) :
    ∀ fuel a i k,
      ((getTextLoop cfg bj resp a fuel).1)[i]? = some (.request k) →
      (i = 0 ∧ k = a) ∨
      (1 ≤ i ∧ a + 1 ≤ k ∧
        ((getTextLoop cfg bj resp a fuel).1)[i - 1]? =
          some (.sleep (compute_backoff cfg (k - 1) (bj (k - 1))))) := by
  intro fuel
  induction fuel with
  | zero =>
    intro a i k h
    simp [getTextLoop] at h
  | succ fuel ih =>
    intro a i k h
    rcases hres : attemptResult (resp a) with e | s
    · by_cases hle : cfg.max_retries ≤ a
      · simp only [getTextLoop, hres, if_pos hle] at h
        rcases i with _ | i
        · simp only [List.getElem?_cons_zero, Option.some.injEq,
            Event.request.injEq] at h
          exact Or.inl ⟨rfl, h.symm⟩
        · simp at h
      · simp only [getTextLoop, hres, if_neg hle] at h
        rcases i with _ | _ | j
        · simp only [List.getElem?_cons_zero, Option.some.injEq,
            Event.request.injEq] at h
          exact Or.inl ⟨rfl, h.symm⟩
        · simp at h
        · simp only [List.getElem?_cons_succ] at h
          rcases ih (a + 1) j k h with ⟨hj, hk⟩ | ⟨hj, hk, hsleep⟩
          · subst hj
            subst hk
            refine Or.inr ⟨by omega, by omega, ?_⟩
            simp only [getTextLoop, hres, if_neg hle]
            simp
          · refine Or.inr ⟨by omega, by omega, ?_⟩
            simp only [getTextLoop, hres, if_neg hle]
            have hidx : j + 1 + 1 - 1 = (j - 1) + 1 + 1 := by omega
            rw [hidx]
            simp only [List.getElem?_cons_succ]
            exact hsleep
    · simp only [getTextLoop, hres] at h
      rcases i with _ | i
      · simp only [List.getElem?_cons_zero, Option.some.injEq,
          Event.request.injEq] at h
        exact Or.inl ⟨rfl, h.symm⟩
      · simp at h

/-- C2 (amended): the first attempt of a get_text call is immediately
preceded by the rate-limit sleep of delay_sec plus nonnegative jitter
(hence at least delay_sec); every retry attempt k is instead immediately
preceded by the backoff sleep of attempt k-1, not by a rate-limit
sleep. -/
theorem get_text_sleep_before_attempts :
    ∀ (cfg : HttpConfig) (j0 : ℚ) (bj : Nat → ℚ) (resp : Nat → ReqOutcome),
      0 ≤ j0 →
      ∀ i k, ((get_text cfg j0 bj resp).1)[i]? = some (.request k) →
        1 ≤ i ∧
        ((k = 0 ∧ ((get_text cfg j0 bj resp).1)[i - 1]? =
            some (.sleep (cfg.delay_sec + j0)) ∧
            cfg.delay_sec ≤ cfg.delay_sec + j0) ∨
          (1 ≤ k ∧ ((get_text cfg j0 bj resp).1)[i - 1]? =
            some (.sleep (compute_backoff cfg (k - 1) (bj (k - 1)))))) := by
  intro cfg j0 bj resp hj0 i k h
  unfold get_text at h ⊢
  rcases i with _ | j
  · simp at h
  · simp only [List.getElem?_cons_succ] at h
    rcases getTextLoop_request_pred cfg bj resp (cfg.max_retries + 1) 0 j k h with
      ⟨hj, hk⟩ | ⟨hj, hk, hsleep⟩
    · subst hj
      subst hk
      exact ⟨le_refl 1, Or.inl ⟨rfl, by simp, by linarith⟩⟩
    · refine ⟨by omega, Or.inr ⟨by omega, ?_⟩⟩
      have hidx : j + 1 - 1 = (j - 1) + 1 := by omega
      rw [hidx]
      simpa using hsleep

/-- Witness for C2 (amended): with delay 1 and zero jitter, the first
request of a failing call sits right after the rate-limit sleep. -/
theorem get_text_sleep_before_attempts_witness :
    1 ≤ 1 ∧
      ((0 = 0 ∧
          ((get_text ⟨1, 1, 1, 1/4, 1/4, "ua"⟩ 0 (fun _ => 0)
              (fun _ => ReqOutcome.netFail "boom")).1)[1 - 1]? =
            some (.sleep ((⟨1, 1, 1, 1/4, 1/4, "ua"⟩ : HttpConfig).delay_sec + 0)) ∧
          (⟨1, 1, 1, 1/4, 1/4, "ua"⟩ : HttpConfig).delay_sec ≤
            (⟨1, 1, 1, 1/4, 1/4, "ua"⟩ : HttpConfig).delay_sec + 0) ∨
        (1 ≤ 0 ∧
          ((get_text ⟨1, 1, 1, 1/4, 1/4, "ua"⟩ 0 (fun _ => 0)
              (fun _ => ReqOutcome.netFail "boom")).1)[1 - 1]? =
            some (.sleep (compute_backoff ⟨1, 1, 1, 1/4, 1/4, "ua"⟩ (0 - 1)
              ((fun _ => (0 : ℚ)) (0 - 1)))))) :=
  get_text_sleep_before_attempts ⟨1, 1, 1, 1/4, 1/4, "ua"⟩ 0 (fun _ => 0)
    (fun _ => ReqOutcome.netFail "boom") (le_refl 0) 1 0 (by rfl)

/-- C2 counterexample: with delay_sec 1, backoff base and cap 1/4 and
zero jitter, the retry attempt (trace position 3) is preceded by a sleep
of only 1/4 < 1, so not every attempt is preceded by a rate-limit sleep
of at least delay_sec. -/
theorem get_text_rate_limit_counterexample :
    ¬ (∀ i k,
        ((get_text ⟨1, 1, 1, 1/4, 1/4, "ua"⟩ 0 (fun _ => 0)
            (fun _ => ReqOutcome.netFail "boom")).1)[i]? = some (.request k) →
        ∃ q, 1 ≤ i ∧
          ((get_text ⟨1, 1, 1, 1/4, 1/4, "ua"⟩ 0 (fun _ => 0)
              (fun _ => ReqOutcome.netFail "boom")).1)[i - 1]? =
            some (.sleep q) ∧
          (⟨1, 1, 1, 1/4, 1/4, "ua"⟩ : HttpConfig).delay_sec ≤ q) := by
  intro h
  obtain ⟨q, -, hq, hle⟩ := h 3 1 (by rfl)
  have h2 : ((get_text ⟨1, 1, 1, 1/4, 1/4, "ua"⟩ 0 (fun _ => 0)
      (fun _ => ReqOutcome.netFail "boom")).1)[3 - 1]? =
      some (.sleep (compute_backoff ⟨1, 1, 1, 1/4, 1/4, "ua"⟩ 0 0)) := by rfl
  have hq' : q = compute_backoff ⟨1, 1, 1, 1/4, 1/4, "ua"⟩ 0 0 :=
    Event.sleep.inj (Option.some.inj (hq.symm.trans h2))
  rw [hq'] at hle
  norm_num [compute_backoff, min_def] at hle

theorem listIndex?_append_cons (ts : String) (pre suf : List String)
    (h : ts ∉ pre) : listIndex? ts (pre ++ ts :: suf) = some pre.length := by
  induction pre with
  | nil => simp [listIndex?]
  | cons p ps ih =>
    have hp : ¬ (p = ts) := fun hc => h (hc ▸ List.mem_cons_self p ps)
    simp only [List.cons_append, listIndex?, if_neg hp, List.append_eq]
    rw [ih (fun hmem => h (List.mem_cons_of_mem p hmem))]
    rfl

theorem collect_body_clean :
    ∀ (mid : List String) (marker : String) (post : List String),
      marker ∈ STOP_MARKERS →
      (∀ l ∈ mid, l ∉ STOP_MARKERS) →
      (∀ l ∈ mid, strStartsWith l "지금 뜨는 인벤" = false) →
      collect_body (mid ++ marker :: post) =
        mid.filter (fun l => !(strStartsWith l "조회:" || strStartsWith l "추천:")) := by
  intro mid
  induction mid with
  | nil =>
    intro marker post hm _ _
    simp [collect_body, hm]
  | cons ln rest ih =>
    intro marker post hm h1 h2
    have hln : ln ∉ STOP_MARKERS := h1 ln (List.mem_cons_self ln rest)
    have hb : strStartsWith ln "지금 뜨는 인벤" = false :=
      h2 ln (List.mem_cons_self ln rest)
    have hc : STOP_MARKERS.contains ln = false := by simpa using hln
    simp only [List.cons_append, collect_body, hc, hb, Bool.false_eq_true,
      if_false, List.append_eq]
    rw [ih marker post hm (fun l hl => h1 l (List.mem_cons_of_mem _ hl))
      (fun l hl => h2 l (List.mem_cons_of_mem _ hl))]
    by_cases hskip : (strStartsWith ln "조회:" || strStartsWith ln "추천:") = true
    · simp only [List.filter_cons, hskip, eq_self_iff_true, if_true,
        Bool.not_true, Bool.false_eq_true, if_false]
    · have hskip2 : (strStartsWith ln "조회:" || strStartsWith ln "추천:") = false :=
        Bool.eq_false_iff.mpr hskip
      simp only [List.filter_cons, hskip2, Bool.false_eq_true, if_false,
        Bool.not_false, eq_self_iff_true, if_true]

theorem collect_body_sublist :
    ∀ ls : List String,
      List.Sublist (collect_body ls)
        (ls.takeWhile (fun l => !(STOP_MARKERS.contains l))) := by
  intro ls
  induction ls with
  | nil => simp [collect_body]
  | cons ln rest ih =>
    by_cases hc : STOP_MARKERS.contains ln = true
    · have hmem : ln ∈ STOP_MARKERS := by simpa using hc
      simp [collect_body, List.takeWhile_cons, hmem]
    · have hc' : STOP_MARKERS.contains ln = false := by
        simpa using hc
      simp only [collect_body, hc', Bool.false_eq_true, if_false,
        List.takeWhile_cons, Bool.not_false, eq_self_iff_true, if_true]
      by_cases hbanner : strStartsWith ln "지금 뜨는 인벤" = true
      · simp [hbanner, List.nil_sublist]
      · simp only [hbanner, if_false]
        by_cases hskip : (strStartsWith ln "조회:" || strStartsWith ln "추천:") = true
        · simp only [hskip, if_true]
          exact ih.cons ln
        · simp only [hskip, if_false]
          exact ih.cons₂ ln

/-- C4: for a line sequence of the form prefix, timestamp line, ordinary
body lines, stop-marker line, tail, the extracted content is exactly the
body lines between the timestamp and the stop marker (view-count and
recommend-count lines skipped); and in general the collected content
lines are a sublist of the lines before the first stop-marker line after
the start index, so the content never contains a stop-marker line nor
any line after the first one. -/
theorem extract_content_between :
    (∀ (pre mid post : List String) (ts marker title : String),
      ts ∉ pre → ts ≠ "" → marker ∈ STOP_MARKERS →
      (∀ l ∈ mid, l ∉ STOP_MARKERS) →
      (∀ l ∈ mid, strStartsWith l "지금 뜨는 인벤" = false) →
      extract_content_body (pre ++ ts :: (mid ++ marker :: post)) (some ts) title =
        mid.filter (fun l => !(strStartsWith l "조회:" || strStartsWith l "추천:"))) ∧
    (∀ (lines : List String) (ca : Option String) (title : String),
      List.Sublist (extract_content_body lines ca title)
        ((lines.drop (content_start_idx lines ca title)).takeWhile
          (fun l => !(STOP_MARKERS.contains l)))) := by
  constructor
  · intro pre mid post ts marker title hpre hts hm h1 h2
    have hidx : content_start_idx (pre ++ ts :: (mid ++ marker :: post))
        (some ts) title = pre.length + 1 := by
      simp only [content_start_idx]
      rw [if_pos hts, listIndex?_append_cons ts pre _ hpre]
    have hdrop : (pre ++ ts :: (mid ++ marker :: post)).drop (pre.length + 1) =
        mid ++ marker :: post := by
      have hsplit : pre ++ ts :: (mid ++ marker :: post) =
          (pre ++ [ts]) ++ (mid ++ marker :: post) := by simp
      rw [hsplit, (show pre.length + 1 = (pre ++ [ts]).length by simp),
        List.drop_left]
    unfold extract_content_body
    rw [hidx, hdrop]
    exact collect_body_clean mid marker post hm h1 h2
  · intro lines ca title
    unfold extract_content_body
    exact collect_body_sublist _

/-- Witness for C4: the spec's example shape: a timestamp line, two body
lines, then the stop marker; the content is exactly the two body
lines. -/
theorem extract_content_between_witness :
    extract_content_body
        ([] ++ "2026-01-28 13:28:48" ::
          (["첫 번째 줄 본문", "두 번째 줄 본문"] ++ "신고" :: ["꼬리"]))
        (some "2026-01-28 13:28:48") "T" =
      ["첫 번째 줄 본문", "두 번째 줄 본문"].filter
        (fun l => !(strStartsWith l "조회:" || strStartsWith l "추천:")) :=
  extract_content_between.1 [] ["첫 번째 줄 본문", "두 번째 줄 본문"] ["꼬리"]
    "2026-01-28 13:28:48" "신고" "T" (by simp) (by decide) (by decide)
    (by decide) (by decide)

theorem mem_of_getLast?_eq : ∀ (l : List Char) (a : Char),
    l.getLast? = some a → a ∈ l := by
  intro l
  induction l with
  | nil => intro a h; simp at h
  | cons c rest ih =>
    intro a h
    rcases rest with _ | ⟨d, rs⟩
    · simp [List.getLast?] at h
      simp [h]
    · rw [List.getLast?_cons_cons] at h
      exact List.mem_cons_of_mem c (ih a h)

theorem takeWhile_bracket (X t : List Char) (hx : ']' ∉ X) :
    (X ++ ']' :: t).takeWhile (· ≠ ']') = X := by
  induction X with
  | nil => simp [List.takeWhile_cons]
  | cons c cs ih =>
    have hc : c ≠ ']' := fun hceq => hx (hceq ▸ List.mem_cons_self c cs)
    rw [List.cons_append, List.takeWhile_cons, if_pos (by simp [hc]),
      ih (fun hmem => hx (List.mem_cons_of_mem c hmem))]

theorem dropWhile_bracket (X t : List Char) (hx : ']' ∉ X) :
    (X ++ ']' :: t).dropWhile (· ≠ ']') = ']' :: t := by
  induction X with
  | nil => simp [List.dropWhile_cons]
  | cons c cs ih =>
    have hc : c ≠ ']' := fun hceq => hx (hceq ▸ List.mem_cons_self c cs)
    rw [List.cons_append, List.dropWhile_cons, if_pos (by simp [hc]),
      ih (fun hmem => hx (List.mem_cons_of_mem c hmem))]

theorem pyStripList_cons_ws (c : Char) (l : List Char)
    (hws : pyWhitespace c = true) : pyStripList (c :: l) = pyStripList l := by
  simp [pyStripList, List.dropWhile_cons, hws]

theorem matchTail_cons_ws (c : Char) (rest : List Char)
    (hws : pyWhitespace c = true) (g : List Char)
    (hg : matchTail rest = some g) : matchTail (c :: rest) = some g := by
  unfold matchTail
  rw [if_pos hws, hg]

theorem matchTail_no_newline :
    ∀ t : List Char, t ≠ [] → '\n' ∉ t →
      ∃ g, matchTail t = some g ∧ pyStripList g = pyStripList t := by
  intro t
  induction t with
  | nil => intro h; exact absurd rfl h
  | cons c rest ih =>
    intro _ hnl
    have hcn : c ≠ '\n' := fun h => hnl (h ▸ List.mem_cons_self c rest)
    have hrestnl : '\n' ∉ rest := fun h => hnl (List.mem_cons_of_mem c h)
    by_cases hws : pyWhitespace c = true
    · cases rest with
      | nil =>
        refine ⟨[c], ?_, rfl⟩
        simp [matchTail, hws, tailDirect, hcn]
      | cons d rs =>
        obtain ⟨g, hg, hstrip⟩ := ih (by simp) hrestnl
        refine ⟨g, ?_, ?_⟩
        · exact matchTail_cons_ws c (d :: rs) hws g hg
        · rw [hstrip, pyStripList_cons_ws c (d :: rs) hws]
    · have hne : pyWhitespace c = false := Bool.eq_false_iff.mpr hws
      refine ⟨c :: rest, ?_, rfl⟩
      have hlast : ¬ ((c :: rest).getLast? = some '\n') := fun hl =>
        hnl (mem_of_getLast?_eq (c :: rest) '\n' hl)
      have hall : (c :: rest).all (fun x => x ≠ '\n') = true := by
        rw [List.all_eq_true]
        intro x hx
        simp only [decide_eq_true_eq]
        exact fun he => hnl (he ▸ hx)
      simp [matchTail, hne, tailDirect, hlast, hall]
      exact ⟨hcn, hrestnl⟩

theorem splitFirstSpace_append (tok rest2 : List Char) (h : ' ' ∉ tok) :
    splitFirstSpace (tok ++ ' ' :: rest2) = some (tok, rest2) := by
  induction tok with
  | nil => simp [splitFirstSpace]
  | cons c cs ih =>
    have hc : ¬ (c = ' ') := fun hceq => h (hceq ▸ List.mem_cons_self c cs)
    rw [List.cons_append, splitFirstSpace, if_neg hc,
      ih (fun hmem => h (List.mem_cons_of_mem c hmem))]
    rfl

theorem splitFirstSpace_none : ∀ l : List Char, ' ' ∉ l →
    splitFirstSpace l = none := by
  intro l
  induction l with
  | nil => intro _; rfl
  | cons c cs ih =>
    intro h
    have hc : ¬ (c = ' ') := fun hceq => h (hceq ▸ List.mem_cons_self c cs)
    rw [splitFirstSpace, if_neg hc,
      ih (fun hm => h (List.mem_cons_of_mem c hm))]
    rfl

theorem split_category_fallback (title : String)
    (hfail : bracketSplit title.data = none ∨
      ∃ X t, bracketSplit title.data = some (X, t) ∧ matchTail t = none) :
    split_category title =
      (match splitFirstSpace title.data with
      | some (p0, p1) =>
        if 1 ≤ p0.length ∧ p0.length ≤ 6 then
          if 2 ≤ (pyStripList p1).length then
            (some (⟨pyStripList p0⟩ : String), (⟨pyStripList p1⟩ : String))
          else (none, pyStrip title)
        else (none, pyStrip title)
      | none => (none, pyStrip title)) := by
  rcases hfail with hb | ⟨X, t, hb, hmt⟩
  · simp only [split_category, hb]
  · simp only [split_category, hb, hmt]

/-- C8 (amended): category splitting on newline-free titles. Bracket
rule: a title of the form bracket X bracket rest, with X of length 1 to
6 containing no closing bracket and rest non-empty, splits to category X
and the trimmed remainder. Fallback rule, applying exactly when the
bracket regex fails to match (including titles that start with an
opening bracket, such as the third example): if the text before the
first space is a token of length 1 to 6 and the trimmed remainder after
the space has length at least 2, the title splits to the stripped token
as category and the trimmed remainder as title. Otherwise - no space, or
a token of length 0 or more than 6, or a trimmed remainder shorter than
2 - there is no category and the title is the trimmed input. The two
spec examples hold; an empty rest after the bracket makes the bracket
regex fail (see the counterexample). -/
theorem split_category_spec :
    (∀ X rest : String, ']' ∉ X.data → 1 ≤ X.length → X.length ≤ 6 →
      rest ≠ "" → '\n' ∉ rest.data →
      split_category ("[" ++ X ++ "]" ++ rest) = (some X, pyStrip rest)) ∧
    (∀ tok rest2 : String, tok ≠ "" → ' ' ∉ tok.data → tok.length ≤ 6 →
      2 ≤ (pyStrip rest2).length →
      (bracketSplit (tok ++ " " ++ rest2).data = none ∨
        ∃ X t, bracketSplit (tok ++ " " ++ rest2).data = some (X, t) ∧
          matchTail t = none) →
      split_category (tok ++ " " ++ rest2) = (some (pyStrip tok), pyStrip rest2)) ∧
    (∀ title : String, ' ' ∉ title.data →
      (bracketSplit title.data = none ∨
        ∃ X t, bracketSplit title.data = some (X, t) ∧ matchTail t = none) →
      split_category title = (none, pyStrip title)) ∧
    (∀ tok rest2 : String, ' ' ∉ tok.data →
      ¬ (1 ≤ tok.length ∧ tok.length ≤ 6 ∧ 2 ≤ (pyStrip rest2).length) →
      (bracketSplit (tok ++ " " ++ rest2).data = none ∨
        ∃ X t, bracketSplit (tok ++ " " ++ rest2).data = some (X, t) ∧
          matchTail t = none) →
      split_category (tok ++ " " ++ rest2) = (none, pyStrip (tok ++ " " ++ rest2))) ∧
    split_category "[질문] abc" = (some "질문", "abc") ∧
    split_category "잡담 내용입니다" = (some "잡담", "내용입니다") ∧
    split_category "[ab cd" = (some "[ab", "cd") := by
  refine ⟨?_, ?_, ?_, ?_, by decide, by decide, by decide⟩
  · intro X rest hbr hlen1 hlen6 hne hnl
    have hdata : ("[" ++ X ++ "]" ++ rest).data =
        '[' :: (X.data ++ ']' :: rest.data) := by
      rw [String.data_append, String.data_append, String.data_append,
        (show ("[" : String).data = ['['] from rfl),
        (show ("]" : String).data = [']'] from rfl)]
      simp
    have hrestne : rest.data ≠ [] := by
      intro h
      apply hne
      cases rest with
      | mk d =>
        have hd : d = [] := h
        rw [hd]
    obtain ⟨g, hg, hstrip⟩ := matchTail_no_newline rest.data hrestne hnl
    have hbracket : bracketSplit (('[') :: (X.data ++ ']' :: rest.data)) =
        some (X.data, rest.data) := by
      simp only [bracketSplit, if_pos rfl, takeWhile_bracket X.data rest.data hbr,
        dropWhile_bracket X.data rest.data hbr]
      simp
      exact ⟨hlen1, hlen6⟩
    simp only [split_category, hdata, hbracket, hg]
    have h1 : (⟨X.data⟩ : String) = X := rfl
    have h2 : pyStrip ⟨g⟩ = pyStrip rest := by
      show String.mk (pyStripList g) = pyStrip rest
      rw [hstrip]
      rfl
    rw [h1, h2]
  · intro tok rest2 hne hsp hlen6 hrlen hfail
    have hdata : (tok ++ " " ++ rest2).data = tok.data ++ ' ' :: rest2.data := by
      rw [String.data_append, String.data_append,
        (show (" " : String).data = [' '] from rfl)]
      simp
    have htokne : tok.data ≠ [] := by
      intro h
      apply hne
      cases tok with
      | mk d =>
        have hd : d = [] := h
        rw [hd]
    have hlen1 : 1 ≤ tok.data.length := by
      cases htd : tok.data with
      | nil => exact absurd htd htokne
      | cons c cs => simp
    have hcond : 1 ≤ tok.data.length ∧ tok.data.length ≤ 6 := ⟨hlen1, hlen6⟩
    have hrlen2 : 2 ≤ (pyStripList rest2.data).length := hrlen
    have hsfs : splitFirstSpace ((tok ++ " " ++ rest2).data) =
        some (tok.data, rest2.data) := by
      rw [hdata]
      exact splitFirstSpace_append tok.data rest2.data hsp
    rw [split_category_fallback _ hfail]
    simp only [hsfs]
    rw [if_pos hcond, if_pos hrlen2]
    rfl
  · intro title hsp hfail
    have hsfs : splitFirstSpace title.data = none :=
      splitFirstSpace_none title.data hsp
    rw [split_category_fallback _ hfail]
    simp only [hsfs]
  · intro tok rest2 hsp hbad hfail
    have hdata : (tok ++ " " ++ rest2).data = tok.data ++ ' ' :: rest2.data := by
      rw [String.data_append, String.data_append,
        (show (" " : String).data = [' '] from rfl)]
      simp
    have hsfs : splitFirstSpace ((tok ++ " " ++ rest2).data) =
        some (tok.data, rest2.data) := by
      rw [hdata]
      exact splitFirstSpace_append tok.data rest2.data hsp
    rw [split_category_fallback _ hfail]
    simp only [hsfs]
    by_cases hc1 : 1 ≤ tok.data.length ∧ tok.data.length ≤ 6
    · rw [if_pos hc1]
      have hc2 : ¬ (2 ≤ (pyStripList rest2.data).length) := fun h2 =>
        hbad ⟨hc1.1, hc1.2, h2⟩
      rw [if_neg hc2]
    · rw [if_neg hc1]

/-- Witness for C8 (amended): the bracket rule at the spec's example. -/
theorem split_category_spec_witness :
    split_category ("[" ++ "질문" ++ "]" ++ " abc") = (some "질문", pyStrip " abc") :=
  split_category_spec.1 "질문" " abc" (by decide) (by decide) (by decide)
    (by decide) (by decide)

/-- C8 counterexample: the title consisting only of a bracketed category
of length 2 and nothing after it is of the form bracket X bracket rest
with empty rest; the claim's first rule would give category 질문 and
empty title, but the code returns no category and the unchanged
title. -/
theorem split_category_counterexample :
    split_category "[질문]" = (none, "[질문]") ∧
      split_category "[질문]" ≠ (some "질문", "") := by
  exact ⟨by decide, by decide⟩

theorem dict_insert_length_le (d : RefDict) (k : Nat) (v : BoardPostRef) :
    (dict_insert d k v).length ≤ d.length + 1 := by
  unfold dict_insert
  by_cases ha : d.any (fun p => p.1 = k) = true
  · rw [if_pos ha]
    simp
  · rw [if_neg ha]
    simp

theorem insert_refs_bound (mp : Nat) :
    ∀ (rs : List BoardPostRef) (d : RefDict), d.length < mp →
      (insert_refs mp rs d).length ≤ mp := by
  intro rs
  induction rs with
  | nil =>
    intro d h
    exact le_of_lt h
  | cons r rs ih =>
    intro d h
    have hle : (dict_insert d r.post_id r).length ≤ mp := by
      have := dict_insert_length_le d r.post_id r
      omega
    by_cases hstop : mp ≤ (dict_insert d r.post_id r).length
    · simp only [insert_refs, if_pos hstop]
      exact hle
    · simp only [insert_refs, if_neg hstop]
      exact ih _ (by omega)

theorem pages_loop_bound (pr : Nat → List BoardPostRef) (mp : Nat) :
    ∀ (n page : Nat) (d : RefDict), d.length < mp →
      (pages_loop pr mp page n d).1.length ≤ mp ∧
      (∀ e ∈ (pages_loop pr mp page n d).2, e.2 < mp) := by
  intro n
  induction n with
  | zero =>
    intro page d h
    exact ⟨le_of_lt h, by simp [pages_loop]⟩
  | succ n ih =>
    intro page d h
    have hins := insert_refs_bound mp (pr page) d h
    by_cases hstop : mp ≤ (insert_refs mp (pr page) d).length
    · simp only [pages_loop, if_pos hstop]
      refine ⟨hins, ?_⟩
      intro e he
      simp only [List.mem_singleton] at he
      rw [he]
      exact h
    · by_cases hempty : pr page = []
      · simp only [pages_loop, if_neg hstop, if_pos hempty]
        refine ⟨hins, ?_⟩
        intro e he
        simp only [List.mem_singleton] at he
        rw [he]
        exact h
      · simp only [pages_loop, if_neg hstop, if_neg hempty]
        obtain ⟨h1, h2⟩ := ih (page + 1) (insert_refs mp (pr page) d) (by omega)
        refine ⟨h1, ?_⟩
        intro e he
        simp only [List.mem_cons] at he
        rcases he with he | he
        · rw [he]
          exact h
        · exact h2 e he

/-- C7 (amended): for every max_posts at least 1, a pagination call
returns at most max_posts references, and every page it fetches is
fetched while the accumulated size is still strictly below max_posts
(so page iteration stops as soon as the bound is reached). -/
theorem fetch_post_refs_bounded :
    ∀ (board_id : Nat) (listPages : Nat → List Anchor) (max_pages max_posts : Nat),
      1 ≤ max_posts →
      (fetch_post_refs board_id listPages max_pages max_posts).length ≤ max_posts ∧
      (∀ e ∈ fetch_post_refs_visits board_id listPages max_pages max_posts,
        e.2 < max_posts) := by
  intro board_id listPages max_pages max_posts h1
  have h := pages_loop_bound (fun p => parse_list_html board_id (listPages p))
    max_posts max_pages 1 [] (by simpa using h1)
  unfold fetch_post_refs fetch_post_refs_visits
  refine ⟨?_, h.2⟩
  rw [List.length_map]
  exact h.1

/-- Witness for C7 (amended): a one-anchor page with max_posts 1 yields
one reference and only page 1 is fetched, at accumulated size 0. -/
theorem fetch_post_refs_bounded_witness :
    (fetch_post_refs 5558
        (fun _ => [⟨⟨"m.inven.co.kr", "/board/lostark/5558/100", ""⟩, "질문입니다"⟩])
        3 1).length ≤ 1 ∧
      (∀ e ∈ fetch_post_refs_visits 5558
          (fun _ => [⟨⟨"m.inven.co.kr", "/board/lostark/5558/100", ""⟩, "질문입니다"⟩])
          3 1, e.2 < 1) :=
  fetch_post_refs_bounded 5558
    (fun _ => [⟨⟨"m.inven.co.kr", "/board/lostark/5558/100", ""⟩, "질문입니다"⟩])
    3 1 (le_refl 1)

/-- C7 counterexample: with max_posts = 0 and a page containing one
matching anchor, the pagination call still returns one reference,
because the size check runs only after the first insertion. -/
theorem fetch_post_refs_counterexample :
    ¬ ((fetch_post_refs 5558
        (fun _ => [⟨⟨"m.inven.co.kr", "/board/lostark/5558/100", ""⟩, "질문입니다"⟩])
        1 0).length ≤ 0) := by
  decide

theorem map_fst_update (k : Nat) (v : BoardPostRef) :
    ∀ d : RefDict,
      (d.map (fun p => if p.1 = k then (k, v) else p)).map Prod.fst =
        d.map Prod.fst := by
  intro d
  induction d with
  | nil => rfl
  | cons p ds ih =>
    simp only [List.map_cons, ih]
    by_cases hp : p.1 = k
    · simp [if_pos hp, hp]
    · simp [if_neg hp]

theorem dict_insert_keys (d : RefDict) (k : Nat) (v : BoardPostRef) :
    (dict_insert d k v).map Prod.fst =
      (if d.any (fun p => p.1 = k) = true then d.map Prod.fst
        else d.map Prod.fst ++ [k]) := by
  unfold dict_insert
  by_cases ha : d.any (fun p => p.1 = k) = true
  · rw [if_pos ha, if_pos ha, map_fst_update]
  · rw [if_neg ha, if_neg ha]
    simp

theorem not_key_of_not_any (d : RefDict) (k : Nat)
    (ha : ¬ (d.any (fun p => p.1 = k) = true)) : k ∉ d.map Prod.fst := by
  intro hk
  apply ha
  rw [List.any_eq_true]
  obtain ⟨p, hp, hpk⟩ := List.mem_map.mp hk
  exact ⟨p, hp, by simp [hpk]⟩

theorem dict_insert_nodup (d : RefDict) (k : Nat) (v : BoardPostRef)
    (h : (d.map Prod.fst).Nodup) : ((dict_insert d k v).map Prod.fst).Nodup := by
  rw [dict_insert_keys]
  by_cases ha : d.any (fun p => p.1 = k) = true
  · rw [if_pos ha]
    exact h
  · rw [if_neg ha]
    rw [List.nodup_append]
    refine ⟨h, List.nodup_singleton k, ?_⟩
    intro a hak hk
    simp only [List.mem_singleton] at hk
    exact not_key_of_not_any d k ha (hk ▸ hak)

theorem dict_insert_entry (d : RefDict) (k : Nat) (v : BoardPostRef)
    (hkv : k = v.post_id) (h : ∀ p ∈ d, p.1 = p.2.post_id) :
    ∀ p ∈ dict_insert d k v, p.1 = p.2.post_id := by
  unfold dict_insert
  by_cases ha : d.any (fun p => p.1 = k) = true
  · rw [if_pos ha]
    intro p hp
    obtain ⟨q, hq, hfq⟩ := List.mem_map.mp hp
    by_cases hq1 : q.1 = k
    · rw [if_pos hq1] at hfq
      rw [← hfq]
      exact hkv
    · rw [if_neg hq1] at hfq
      rw [← hfq]
      exact h q hq
  · rw [if_neg ha]
    intro p hp
    rcases List.mem_append.mp hp with hp | hp
    · exact h p hp
    · simp only [List.mem_singleton] at hp
      rw [hp]
      exact hkv

theorem insert_refs_inv (mp : Nat) :
    ∀ (rs : List BoardPostRef) (d : RefDict),
      (d.map Prod.fst).Nodup → (∀ p ∈ d, p.1 = p.2.post_id) →
      ((insert_refs mp rs d).map Prod.fst).Nodup ∧
        (∀ p ∈ insert_refs mp rs d, p.1 = p.2.post_id) := by
  intro rs
  induction rs with
  | nil =>
    intro d h1 h2
    exact ⟨h1, h2⟩
  | cons r rs ih =>
    intro d h1 h2
    have h1' := dict_insert_nodup d r.post_id r h1
    have h2' := dict_insert_entry d r.post_id r rfl h2
    by_cases hstop : mp ≤ (dict_insert d r.post_id r).length
    · simp only [insert_refs, if_pos hstop]
      exact ⟨h1', h2'⟩
    · simp only [insert_refs, if_neg hstop]
      exact ih _ h1' h2'

theorem pages_loop_inv (pr : Nat → List BoardPostRef) (mp : Nat) :
    ∀ (n page : Nat) (d : RefDict),
      (d.map Prod.fst).Nodup → (∀ p ∈ d, p.1 = p.2.post_id) →
      (((pages_loop pr mp page n d).1.map Prod.fst).Nodup ∧
        (∀ p ∈ (pages_loop pr mp page n d).1, p.1 = p.2.post_id)) := by
  intro n
  induction n with
  | zero =>
    intro page d h1 h2
    exact ⟨h1, h2⟩
  | succ n ih =>
    intro page d h1 h2
    obtain ⟨h1', h2'⟩ := insert_refs_inv mp (pr page) d h1 h2
    by_cases hstop : mp ≤ (insert_refs mp (pr page) d).length
    · simp only [pages_loop, if_pos hstop]
      exact ⟨h1', h2'⟩
    · by_cases hempty : pr page = []
      · simp only [pages_loop, if_neg hstop, if_pos hempty]
        exact ⟨h1', h2'⟩
      · simp only [pages_loop, if_neg hstop, if_neg hempty]
        exact ih (page + 1) _ h1' h2'

theorem lookup_append_key (k : Nat) (v : BoardPostRef) :
    ∀ d : RefDict, (∀ p ∈ d, ¬ (p.1 = k)) →
      List.lookup k (d ++ [(k, v)]) = some v := by
  intro d
  induction d with
  | nil => simp [List.lookup]
  | cons p ds ih =>
    intro h
    have hp : ¬ (p.1 = k) := h p (List.mem_cons_self p ds)
    have hbeq : (k == p.1) = false := by
      simp [Ne.symm hp]
    simp only [List.cons_append, List.lookup, hbeq, cond_false]
    exact ih (fun q hq => h q (List.mem_cons_of_mem p hq))

theorem lookup_update_key (k : Nat) (v : BoardPostRef) :
    ∀ d : RefDict, d.any (fun p => p.1 = k) = true →
      List.lookup k (d.map (fun p => if p.1 = k then (k, v) else p)) = some v := by
  intro d
  induction d with
  | nil => intro h; simp at h
  | cons p ds ih =>
    intro h
    by_cases hp : p.1 = k
    · rw [List.map_cons, if_pos hp]
      simp [List.lookup]
    · have h' : ds.any (fun p => p.1 = k) = true := by
        simp only [List.any_cons, hp] at h
        simpa using h
      have hbeq : (k == p.1) = false := by
        simp [Ne.symm hp]
      rw [List.map_cons, if_neg hp]
      simp only [List.lookup, hbeq, cond_false]
      exact ih h'

theorem dict_insert_lookup (d : RefDict) (k : Nat) (v : BoardPostRef) :
    List.lookup k (dict_insert d k v) = some v := by
  unfold dict_insert
  by_cases ha : d.any (fun p => p.1 = k) = true
  · rw [if_pos ha]
    exact lookup_update_key k v d ha
  · rw [if_neg ha]
    apply lookup_append_key
    intro p hp hpk
    apply ha
    rw [List.any_eq_true]
    exact ⟨p, hp, by simp [hpk]⟩

/-- C1 (amended): one pagination call yields pairwise-distinct post_ids
(at most one PostRef per post_id, entries kept at the position of the
first occurrence), and when an anchor's post_id is already present the
accumulator entry is replaced in place by the later PostRef - the last
occurrence wins, with key order unchanged. -/
theorem fetch_post_refs_dedup :
    (∀ (board_id : Nat) (listPages : Nat → List Anchor) (max_pages max_posts : Nat),
      (fetch_post_refs board_id listPages max_pages max_posts).Pairwise
        (fun a b => a.post_id ≠ b.post_id)) ∧
    (∀ (d : RefDict) (k : Nat) (v : BoardPostRef),
      d.any (fun p => p.1 = k) = true →
      (dict_insert d k v).map Prod.fst = d.map Prod.fst ∧
        List.lookup k (dict_insert d k v) = some v) := by
  constructor
  · intro board_id listPages max_pages max_posts
    unfold fetch_post_refs
    obtain ⟨h1, h2⟩ := pages_loop_inv
      (fun p => parse_list_html board_id (listPages p)) max_posts max_pages 1 []
      (by simp) (by simp)
    rw [List.pairwise_map]
    have h1' : (pages_loop (fun p => parse_list_html board_id (listPages p))
        max_posts 1 max_pages []).1.Pairwise (fun a b => a.1 ≠ b.1) := by
      rw [← List.pairwise_map]
      exact h1
    refine h1'.imp_of_mem ?_
    intro a b ha hb hab
    rw [h2 a ha, h2 b hb] at hab
    exact hab
  · intro d k v ha
    refine ⟨?_, dict_insert_lookup d k v⟩
    rw [dict_insert_keys, if_pos ha]

/-- C1 counterexample: two anchors with the same post_id but different
titles on one list page: one pagination call returns a single PostRef
carrying the second anchor's title, not the first anchor's title as the
claim states. -/
theorem fetch_post_refs_dedup_counterexample :
    (fetch_post_refs 5558
        (fun _ => [⟨⟨"m.inven.co.kr", "/board/lostark/5558/100", ""⟩, "잡담 첫번째제목"⟩,
          ⟨⟨"m.inven.co.kr", "/board/lostark/5558/100", ""⟩, "잡담 두번째제목"⟩])
        1 30).map BoardPostRef.title = ["두번째제목"] ∧
      ¬ ((fetch_post_refs 5558
        (fun _ => [⟨⟨"m.inven.co.kr", "/board/lostark/5558/100", ""⟩, "잡담 첫번째제목"⟩,
          ⟨⟨"m.inven.co.kr", "/board/lostark/5558/100", ""⟩, "잡담 두번째제목"⟩])
        1 30).map BoardPostRef.title = ["첫번째제목"]) := by
  exact ⟨by decide, by decide⟩

theorem predict_batch_length (neutral_floor : ℚ)
    (model : List String → List (ℚ × ℚ × ℚ))
    (hm : ∀ l, (model l).length = l.length) (texts : List String) :
    (predict_batch neutral_floor model texts).length = texts.length := by
  unfold predict_batch
  rw [List.length_map, List.length_zip, hm, List.length_map, List.length_map]
  exact Nat.min_self _

theorem predict_batch_blank (neutral_floor : ℚ)
    (model : List String → List (ℚ × ℚ × ℚ))
    (hm : ∀ l, (model l).length = l.length) (texts : List String)
    (i : Nat) (t : String) (hit : texts[i]? = some t)
    (hbl : is_blank t = true) :
    (predict_batch neutral_floor model texts)[i]? = some NEUTRAL_RESULT := by
  unfold predict_batch
  have hi : i < texts.length := by
    by_contra hge
    rw [List.getElem?_eq_none (by omega)] at hit
    exact Option.noConfusion hit
  have hmask : (texts.map is_blank)[i]? = some true := by
    rw [List.getElem?_map, hit]
    simp [hbl]
  have hplen : i < (model (texts.map (fun t => if is_blank t then "" else t))).length := by
    rw [hm, List.length_map]
    exact hi
  obtain ⟨p, hp⟩ : ∃ p,
      (model (texts.map (fun t => if is_blank t then "" else t)))[i]? = some p :=
    ⟨_, List.getElem?_eq_getElem hplen⟩
  have hz : ((model (texts.map (fun t => if is_blank t then "" else t))).zip
      (texts.map is_blank))[i]? = some (p, true) :=
    List.getElem?_zip_eq_some.mpr ⟨hp, hmask⟩
  rw [List.getElem?_map, hz]
  simp [predict_row]

theorem predict_flatten_spec (bs : Nat) (hbs : 1 ≤ bs) (neutral_floor : ℚ)
    (model : List String → List (ℚ × ℚ × ℚ))
    (hm : ∀ l, (model l).length = l.length) :
    ∀ (n : Nat) (texts : List String), texts.length ≤ n →
      ((((batched bs texts).map (predict_batch neutral_floor model)).flatten.length
          = texts.length) ∧
        (∀ (i : Nat) (t : String), texts[i]? = some t → is_blank t = true →
          (((batched bs texts).map (predict_batch neutral_floor model)).flatten)[i]?
            = some NEUTRAL_RESULT)) := by
  intro n
  induction n with
  | zero =>
    intro texts h
    have : texts = [] := List.eq_nil_of_length_eq_zero (Nat.le_zero.mp h)
    subst this
    refine ⟨by simp [batched], ?_⟩
    intro i t hit
    simp at hit
  | succ n ih =>
    intro texts hlen
    cases texts with
    | nil =>
      refine ⟨by simp [batched], ?_⟩
      intro i t hit
      simp at hit
    | cons x xs =>
      have hbs0 : ¬ (bs = 0) := by omega
      have hlist : (batched bs (x :: xs)).map (predict_batch neutral_floor model)
          = predict_batch neutral_floor model ((x :: xs).take bs) ::
            (batched bs ((x :: xs).drop bs)).map (predict_batch neutral_floor model) := by
        rw [batched, dif_neg hbs0, List.map_cons]
      have ihd := ih ((x :: xs).drop bs)
        (by rw [List.length_drop]; simp at hlen ⊢; omega)
      have htklen : (predict_batch neutral_floor model ((x :: xs).take bs)).length
          = min bs (x :: xs).length := by
        rw [predict_batch_length neutral_floor model hm, List.length_take]
      constructor
      · rw [hlist, List.flatten_cons, List.length_append, htklen, ihd.1,
          List.length_drop]
        have := List.length_cons x xs
        omega
      · intro i t hit hbl
        have hi : i < (x :: xs).length := by
          by_contra hge
          rw [List.getElem?_eq_none (by omega)] at hit
          exact Option.noConfusion hit
        rw [hlist, List.flatten_cons, List.getElem?_append]
        by_cases hlt : i < (predict_batch neutral_floor model ((x :: xs).take bs)).length
        · rw [if_pos hlt]
          apply predict_batch_blank neutral_floor model hm _ i t _ hbl
          rw [List.getElem?_take, if_pos (by rw [htklen] at hlt; omega), hit]
        · rw [if_neg hlt]
          have hbsle : bs ≤ i := by
            rw [htklen] at hlt
            omega
          have hdrop : ((x :: xs).drop bs)[i - bs]? = some t := by
            rw [List.getElem?_drop]
            rw [(show bs + (i - bs) = i by omega), hit]
          have := ihd.2 (i - bs) t hdrop hbl
          rw [htklen, (show min bs (x :: xs).length = bs by omega)]
          exact this

/-- C9: predict returns one result per input text in order, and every
blank input text maps to the fixed neutral result, whatever the model
returns for its batch. -/
theorem predict_spec :
    ∀ (batch_size max_length : Nat) (neutral_floor : ℚ)
      (model : List String → List (ℚ × ℚ × ℚ)) (texts : List String),
      1 ≤ batch_size → 1 ≤ max_length →
      (∀ l, (model l).length = l.length) →
      ∃ res, predict batch_size max_length neutral_floor model texts = .ok res ∧
        res.length = texts.length ∧
        (∀ (i : Nat) (t : String), texts[i]? = some t → is_blank t = true →
          res[i]? = some NEUTRAL_RESULT) := by
  intro bs ml neutral_floor model texts hbs hml hm
  have h := predict_flatten_spec bs hbs neutral_floor model hm texts.length texts le_rfl
  refine ⟨_, ?_, h.1, h.2⟩
  unfold predict
  rw [if_neg (by omega), if_neg (by omega)]

/-- Witness for C9: three texts, two of them blank, with a model that
gives every row probability mass on neg: the blank rows are still
neutral. -/
theorem predict_spec_witness :
    ∃ res, predict 2 10 0 (fun l => l.map (fun _ => ((1 : ℚ), (0 : ℚ), (0 : ℚ))))
        ["", "안녕", " "] = .ok res ∧
      res.length = (["", "안녕", " "] : List String).length ∧
      (∀ (i : Nat) (t : String), (["", "안녕", " "] : List String)[i]? = some t →
        is_blank t = true → res[i]? = some NEUTRAL_RESULT) :=
  predict_spec 2 10 0 (fun l => l.map (fun _ => ((1 : ℚ), (0 : ℚ), (0 : ℚ))))
    ["", "안녕", " "] (by omega) (by omega) (fun l => by simp)

/-- Witness for C1 (amended): inserting a second ref under an existing
key keeps the key order and replaces the stored value. -/
theorem fetch_post_refs_dedup_witness :
    (dict_insert [(100, ⟨5558, 100, ⟨"m.inven.co.kr", "/board/lostark/5558/100", ""⟩,
        "첫번째제목", some "잡담"⟩)] 100
      ⟨5558, 100, ⟨"m.inven.co.kr", "/board/lostark/5558/100", ""⟩,
        "두번째제목", some "잡담"⟩).map Prod.fst =
      [(100, (⟨5558, 100, ⟨"m.inven.co.kr", "/board/lostark/5558/100", ""⟩,
        "첫번째제목", some "잡담"⟩ : BoardPostRef))].map Prod.fst ∧
    List.lookup 100
      (dict_insert [(100, ⟨5558, 100, ⟨"m.inven.co.kr", "/board/lostark/5558/100", ""⟩,
          "첫번째제목", some "잡담"⟩)] 100
        ⟨5558, 100, ⟨"m.inven.co.kr", "/board/lostark/5558/100", ""⟩,
          "두번째제목", some "잡담"⟩) =
      some ⟨5558, 100, ⟨"m.inven.co.kr", "/board/lostark/5558/100", ""⟩,
        "두번째제목", some "잡담"⟩ :=
  fetch_post_refs_dedup.2
    [(100, ⟨5558, 100, ⟨"m.inven.co.kr", "/board/lostark/5558/100", ""⟩,
      "첫번째제목", some "잡담"⟩)] 100
    ⟨5558, 100, ⟨"m.inven.co.kr", "/board/lostark/5558/100", ""⟩,
      "두번째제목", some "잡담"⟩ (by decide)
